import Mathlib

/-!
Verification development for the tradepopping resumable bulk-ingest core.

Shallow embedding conventions, used uniformly below:
* SQL `DATE` and `TIMESTAMP` columns are modelled as `Int` (day number /
  clock tick); `NULL`-able columns as `Option _`.
* SQL numeric price columns (`DOUBLE`) are modelled as `ℚ`; the claims
  under study never perform arithmetic on prices, they only move values.
* A SQL table is a `List` of row structures; `INSERT OR IGNORE` /
  `INSERT OR REPLACE` / `UPDATE ... WHERE` are list operations keyed by
  the table's primary key.
* SQL text ordering (`ORDER BY symbol ASC`) is modelled by a lexicographic
  comparison on the string's character list (`charsLt`), which the kernel
  can evaluate.
Each definition names the Python function of the repository it embeds.
-/

/-- Strict lexicographic order on character lists, modelling SQL text
collation for `ORDER BY ... ASC` on symbol columns. -/
def charsLt : List Char → List Char → Bool
  | [], [] => false
  | [], _ :: _ => true
  | _ :: _, [] => false
  | a :: as, b :: bs =>
      decide (a.toNat < b.toNat) || (decide (a.toNat = b.toNat) && charsLt as bs)

/-- Strict order on strings via their character lists. -/
def symLt (a b : String) : Bool := charsLt a.data b.data

theorem charsLt_irrefl : ∀ l : List Char, charsLt l l = false := by
  intro l
  induction l with
  | nil => rfl
  | cons a as ih =>
      simp [charsLt, ih]

theorem charsLt_trans :
    ∀ {x y z : List Char}, charsLt x y = true → charsLt y z = true →
      charsLt x z = true := by
  intro x
  induction x with
  | nil =>
      intro y z hxy hyz
      cases y with
      | nil => exact hyz
      | cons b bs =>
          cases z with
          | nil => simp [charsLt] at hyz
          | cons c cs => rfl
  | cons a as ih =>
      intro y z hxy hyz
      cases y with
      | nil => simp [charsLt] at hxy
      | cons b bs =>
          cases z with
          | nil => simp [charsLt] at hyz
          | cons c cs =>
              simp only [charsLt, Bool.or_eq_true, Bool.and_eq_true,
                decide_eq_true_eq] at hxy hyz ⊢
              rcases hxy with hab | ⟨hab, hrest⟩
              · rcases hyz with hbc | ⟨hbc, _⟩
                · exact Or.inl (Nat.lt_trans hab hbc)
                · exact Or.inl (hbc ▸ hab)
              · rcases hyz with hbc | ⟨hbc, hrest2⟩
                · exact Or.inl (hab ▸ hbc)
                · exact Or.inr ⟨hab.trans hbc, ih hrest hrest2⟩

/-! ## Queue store — `backend/app/datalake/eodhd_queue.py`

Table `eodhd_ingest_queue`, primary key `(job_id, symbol, window_start,
window_end)`. -/

/-- The `state` column of a queue row:
`'pending' | 'running' | 'succeeded' | 'failed'`. -/
inductive QState where
  | pending
  | running
  | succeeded
  | failed
deriving DecidableEq, Repr

/-- One row of `eodhd_ingest_queue`. -/
structure QueueRow where
  job_id : String
  symbol : String
  window_start : Int
  window_end : Int
  state : QState
  attempts : Int
  created_at : Option Int
  last_attempt_at : Option Int
  last_error : Option String
deriving DecidableEq, Repr

/-- Primary key of a queue row. -/
def rowKey (r : QueueRow) : String × String × Int × Int :=
  (r.job_id, r.symbol, r.window_start, r.window_end)

/-- `INSERT OR IGNORE`: append the row unless a row with the same primary
key is already present. -/
def insertOrIgnore (q : List QueueRow) (r : QueueRow) : List QueueRow :=
  if q.any (fun x => rowKey x = rowKey r) then q else q ++ [r]

/-- The fresh row `enqueue` inserts for one `(symbol, window_start,
window_end)` item: symbol uppercased, `state='pending'`, `attempts=0`,
`created_at=now`, `last_attempt_at = last_error = NULL`. -/
def enqueueRow (jobId : String) (now : Int) (item : String × Int × Int) :
    QueueRow :=
  { job_id := jobId
    symbol := item.1.toUpper
    window_start := item.2.1
    window_end := item.2.2
    state := QState.pending
    attempts := 0
    created_at := some now
    last_attempt_at := none
    last_error := none }

/-- Embeds `enqueue(job_id, items)`: early-return 0 on an empty item list,
otherwise insert each item as a fresh `pending` row, ignoring primary-key
duplicates, and return `len(items)`. -/
def enqueue (jobId : String) (items : List (String × Int × Int)) (now : Int)
    (q : List QueueRow) : List QueueRow × Int :=
  if items = [] then (q, 0)
  else
    (items.foldl (fun acc item => insertOrIgnore acc (enqueueRow jobId now item)) q,
     items.length)

/-- Embeds `reset_stale_running_to_pending(job_id, stale_minutes)`: flip
`running` rows of the job whose `last_attempt_at` is `NULL` or older than
the cutoff back to `pending`; the Python function then returns the literal
`0` ("DuckDB may not reliably return rowcount; return 0 for now"). -/
def reset_stale_running_to_pending (jobId : String) (cutoff : Int)
    (q : List QueueRow) : List QueueRow × Int :=
  (q.map (fun r =>
    if r.job_id = jobId ∧ r.state = QState.running ∧
        (r.last_attempt_at = none ∨ ∃ t, r.last_attempt_at = some t ∧ t < cutoff)
    then { r with state := QState.pending }
    else r),
   0)

/-- Eligibility predicate of `pop_next`'s SELECT:
`job_id = ? AND state IN ('pending','failed') AND attempts < max_attempts`. -/
def popEligible (jobId : String) (maxAttempts : Int) (r : QueueRow) : Bool :=
  decide (r.job_id = jobId) &&
  (decide (r.state = QState.pending) || decide (r.state = QState.failed)) &&
  decide (r.attempts < maxAttempts)

/-- `CASE WHEN state = 'pending' THEN 0 ELSE 1 END`. -/
def stateRank (s : QState) : Nat := if s = QState.pending then 0 else 1

/-- Strict comparison for `ORDER BY (pending-first, attempts ASC, symbol ASC)`. -/
def popOrderLt (a b : QueueRow) : Bool :=
  decide (stateRank a.state < stateRank b.state) ||
  (decide (stateRank a.state = stateRank b.state) &&
    (decide (a.attempts < b.attempts) ||
     (decide (a.attempts = b.attempts) && symLt a.symbol b.symbol)))

/-- `SELECT ... ORDER BY ... LIMIT 1`: first row of the list that is
minimal for `popOrderLt` (ties between incomparable rows resolve to table
order, which SQL leaves unspecified). -/
def chooseFirst : List QueueRow → Option QueueRow
  | [] => none
  | r :: rs => some (rs.foldl (fun acc x => if popOrderLt x acc then x else acc) r)

/-- The item dictionary returned by `pop_next`. -/
structure PopItem where
  symbol : String
  window_start : Int
  window_end : Int
  attempts : Int
deriving DecidableEq, Repr

/-- Embeds `pop_next(job_id, max_attempts)`: select one eligible row in
the documented order; if none, commit and return `None`; otherwise update
the row with that primary key to `state='running'`,
`attempts = selected.attempts + 1`, `last_attempt_at = now`,
`last_error = NULL`, and return the item. -/
def pop_next (jobId : String) (maxAttempts : Int) (now : Int)
    (q : List QueueRow) : List QueueRow × Option PopItem :=
  match chooseFirst (q.filter (popEligible jobId maxAttempts)) with
  | none => (q, none)
  | some r =>
      (q.map (fun x =>
        if rowKey x = (jobId, r.symbol, r.window_start, r.window_end)
        then { x with state := QState.running, attempts := r.attempts + 1,
                      last_attempt_at := some now, last_error := none }
        else x),
       some { symbol := r.symbol, window_start := r.window_start,
              window_end := r.window_end, attempts := r.attempts + 1 })

theorem popOrderLt_irrefl (a : QueueRow) : popOrderLt a a = false := by
  simp [popOrderLt, symLt, charsLt_irrefl]

theorem popOrderLt_trans {a b c : QueueRow} (hab : popOrderLt a b = true)
    (hbc : popOrderLt b c = true) : popOrderLt a c = true := by
  simp only [popOrderLt, Bool.or_eq_true, Bool.and_eq_true,
    decide_eq_true_eq] at hab hbc ⊢
  rcases hab with h1 | ⟨h1, h2⟩
  · rcases hbc with g1 | ⟨g1, _⟩
    · exact Or.inl (Nat.lt_trans h1 g1)
    · exact Or.inl (g1 ▸ h1)
  · rcases hbc with g1 | ⟨g1, g2⟩
    · exact Or.inl (h1 ▸ g1)
    · refine Or.inr ⟨h1.trans g1, ?_⟩
      rcases h2 with h2 | ⟨h2, h3⟩
      · rcases g2 with g2 | ⟨g2, _⟩
        · exact Or.inl (h2.trans g2)
        · exact Or.inl (g2 ▸ h2)
      · rcases g2 with g2 | ⟨g2, g3⟩
        · exact Or.inl (h2 ▸ g2)
        · exact Or.inr ⟨h2.trans g2, charsLt_trans h3 g3⟩

/-! ## Window partitioning — `backend/app/routes/datalake_eodhd.py`

The loop shared by `ingest_eodhd_full_history` (lines 548-556) and
`_run_full_history_ingest` (lines 634-642):
```
cur = payload.start
while cur <= payload.end:
    window_end = cur + timedelta(days=payload.window_days - 1)
    if window_end > payload.end:
        window_end = payload.end
    windows.append((cur, window_end))
    cur = window_end + timedelta(days=1)
```
Dates are day numbers (`Int`). The Python loop does not terminate when
`window_days ≤ 0`; the embedding runs it on explicit fuel, which is
sufficient for every terminating run (`window_days ≥ 1`). -/

def buildWindowsFuel : Nat → Int → Int → Int → List (Int × Int)
  | 0, _, _, _ => []
  | fuel + 1, cur, e, wd =>
      if cur ≤ e then
        (cur, min (cur + wd - 1) e) ::
          buildWindowsFuel fuel (min (cur + wd - 1) e + 1) e wd
      else []

/-- The window list of a request `[start, end]` chunked by `window_days`. -/
def build_windows (start end_ window_days : Int) : List (Int × Int) :=
  buildWindowsFuel (end_ + 1 - start).toNat start end_ window_days

/-! ## Job store — `backend/app/datalake/ingest_jobs.py`

Table `eodhd_ingest_jobs`. -/

/-- One row of `eodhd_ingest_jobs`. -/
structure IngestJob where
  id : String
  created_at : Int
  started_at : Option Int
  finished_at : Option Int
  state : String
  requested_start : Int
  requested_end : Int
  universe_symbols_considered : Int
  symbols_attempted : Int
  symbols_succeeded : Int
  symbols_failed : Int
  last_error : Option String
deriving DecidableEq, Repr

/-- Embeds `create_ingest_job(...)`: inserts a fresh row with
`state='running'`, `created_at = started_at = now`, `finished_at = NULL`,
and the given counters (the Python defaults are 0). The opaque uuid is
passed in as `jobId`. -/
def create_ingest_job (jobId : String) (now : Int)
    (requested_start requested_end : Int)
    (universe_symbols_considered : Int)
    (symbols_attempted symbols_succeeded symbols_failed : Int)
    (last_error : Option String) : IngestJob :=
  { id := jobId
    created_at := now
    started_at := some now
    finished_at := none
    state := "running"
    requested_start := requested_start
    requested_end := requested_end
    universe_symbols_considered := universe_symbols_considered
    symbols_attempted := symbols_attempted
    symbols_succeeded := symbols_succeeded
    symbols_failed := symbols_failed
    last_error := last_error }

/-- Embeds `update_ingest_job_progress(job_id, ...)`: a partial UPDATE
whose SET clause contains `state` only when given, `universe_symbols_considered`
only when given, and always the three counters and `last_error`; it never
touches `finished_at` (nor `id`, `created_at`, `started_at`,
`requested_start`, `requested_end`). -/
def update_ingest_job_progress (job : IngestJob) (state : Option String)
    (universe_symbols_considered : Option Int)
    (symbols_attempted symbols_succeeded symbols_failed : Int)
    (last_error : Option String) : IngestJob :=
  { job with
      state := state.getD job.state
      universe_symbols_considered :=
        universe_symbols_considered.getD job.universe_symbols_considered
      symbols_attempted := symbols_attempted
      symbols_succeeded := symbols_succeeded
      symbols_failed := symbols_failed
      last_error := last_error }

/-- Embeds `update_ingest_job(job_id, state, ...)`: when `state = 'running'`
the UPDATE sets state, counters and `last_error` only; otherwise it also
sets `finished_at = now`. -/
def update_ingest_job (job : IngestJob) (state : String)
    (symbols_attempted symbols_succeeded symbols_failed : Int)
    (last_error : Option String) (now : Int) : IngestJob :=
  if state = "running" then
    { job with
        state := state
        symbols_attempted := symbols_attempted
        symbols_succeeded := symbols_succeeded
        symbols_failed := symbols_failed
        last_error := last_error }
  else
    { job with
        finished_at := some now
        state := state
        symbols_attempted := symbols_attempted
        symbols_succeeded := symbols_succeeded
        symbols_failed := symbols_failed
        last_error := last_error }

/-! ## Universe selection — `_select_universe_symbols`
(`backend/app/routes/datalake_eodhd.py`, lines 177-248). -/

/-- One row of `symbol_universe` (only the columns the query consults;
`name`, `sector`, `industry`, `price`, `updated_at` never appear in it). -/
structure UniverseRow where
  symbol : String
  exchange : Option String
  market_cap : Option Int
  is_etf : Option Bool
  is_fund : Option Bool
  is_actively_trading : Option Bool
deriving DecidableEq, Repr

/-- The WHERE clause of `_select_universe_symbols`, under SQL three-valued
logic (a `NULL` never satisfies `IN`, `>=`, `<=` or `= TRUE`):
exchange membership only when the filter list is non-empty (uppercased),
funds always excluded (`is_fund IS NULL OR is_fund = FALSE`),
`market_cap IS NOT NULL AND market_cap >= min AND (<= max when given)`,
ETFs excluded unless `include_etfs`, and
`is_actively_trading = TRUE` when `active_only`. -/
def universeWhere (min_market_cap : Int) (max_market_cap : Option Int)
    (exchanges : List String) (include_etfs active_only : Bool)
    (r : UniverseRow) : Bool :=
  (exchanges.isEmpty ||
    (exchanges.map String.toUpper).any (fun e => r.exchange = some e)) &&
  (decide (r.is_fund = none) || decide (r.is_fund = some false)) &&
  (match r.market_cap with
   | none => false
   | some c =>
      decide (min_market_cap ≤ c) &&
      (match max_market_cap with
       | none => true
       | some m => decide (c ≤ m))) &&
  (include_etfs || decide (r.is_etf = none) || decide (r.is_etf = some false)) &&
  (!active_only || decide (r.is_actively_trading = some true))

/-- `ORDER BY market_cap DESC` — and nothing else: the query has no
secondary sort key, so ties keep an unspecified order, modelled here as
table order (stable insertion sort). -/
def sortByCapDesc (rows : List UniverseRow) : List UniverseRow :=
  rows.insertionSort (fun a b => b.market_cap.getD 0 ≤ a.market_cap.getD 0)

/-- Embeds `_select_universe_symbols(...)`: filter by `universeWhere`,
order by market-cap descending, `LIMIT max_symbols`, project `symbol`.
(When the `symbol_universe` table is missing the Python returns `[]`,
which coincides with running the query on an empty table.) -/
def select_universe_symbols (min_market_cap : Int)
    (max_market_cap : Option Int) (exchanges : List String)
    (include_etfs active_only : Bool) (max_symbols : Nat)
    (tbl : List UniverseRow) : List String :=
  ((sortByCapDesc
      (tbl.filter
        (universeWhere min_market_cap max_market_cap exchanges
          include_etfs active_only))).take max_symbols).map
    (fun r => r.symbol)

/-! ## Handler models — `backend/app/routes/datalake_eodhd.py`

The per-item vendor/ingest outcome is abstracted as a boolean oracle:
`true` means `ingest_eodhd_window` + `read_daily_bars` raised nothing for
that (symbol, window), `false` means the inner `except` ran. -/

/-- The universe-filter part of a request payload. -/
structure UniverseFilters where
  min_market_cap : Int
  max_market_cap : Option Int
  exchanges : List String
  include_etfs : Bool
  active_only : Bool
  max_symbols : Nat
deriving Repr

/-- `EodhdFullHistoryRequest`: `start`, `end`, filters, `window_days`. -/
structure FullHistoryRequest where
  start : Int
  end_ : Int
  filters : UniverseFilters
  window_days : Int
deriving Repr

/-- Embeds the tail of `ingest_eodhd_for_universe` (lines 327-342): after
the per-symbol loop (outcome list `outcomes`, one boolean per selected
symbol), the job state is `succeeded` iff `failed == 0`, and
`update_ingest_job` is called with `symbols_attempted = universe_count`
and the loop counters. -/
def finalize_ingest_window_job (job : IngestJob) (outcomes : List Bool)
    (now : Int) : IngestJob :=
  let succeeded := (outcomes.filter (fun b => b)).length
  let failed := (outcomes.filter (fun b => !b)).length
  let jobState := if failed = 0 then "succeeded" else "failed"
  let lastError : Option String :=
    if failed = 0 then none else some "Some symbols failed during ingest."
  update_ingest_job job jobState (outcomes.length) succeeded failed lastError now

/-- Result of the `ingest-window` handler: either the synchronous
`NoUniverseMatch` 400 (raised before any job row is inserted), or the
response together with the single job row the handler created. -/
inductive IngestWindowResult where
  | noUniverseMatch
  | completed (job : IngestJob)
deriving Repr

/-- Embeds `ingest_eodhd_for_universe` (the `/datalake/eodhd/ingest-window`
handler) on the normal control path: select the universe, 400 with no job
when it is empty, otherwise create the job, run the loop (outcomes given
by the oracle, in symbol order) and finalize. Also returns the list of
job rows the handler inserted. -/
def ingest_eodhd_for_universe (filters : UniverseFilters)
    (req_start req_end : Int) (tbl : List UniverseRow)
    (oracle : String → Bool) (jobId : String) (now : Int) :
    IngestWindowResult × List IngestJob :=
  let symbols := select_universe_symbols filters.min_market_cap
    filters.max_market_cap filters.exchanges filters.include_etfs
    filters.active_only filters.max_symbols tbl
  if symbols.length = 0 then (IngestWindowResult.noUniverseMatch, [])
  else
    let job := create_ingest_job jobId now req_start req_end
      symbols.length 0 0 0 none
    let outcomes := symbols.map oracle
    let final := finalize_ingest_window_job job outcomes now
    (IngestWindowResult.completed final, [final])

/-- The exception raised by every `update_ingest_job(...)` call inside
`_run_full_history_ingest`: all four call sites (lines 620, 645, 682, 694)
pass a `universe_symbols_considered=` keyword argument, but
`update_ingest_job`'s signature
(`job_id, *, state, symbols_attempted, symbols_succeeded, symbols_failed,
last_error=None`) has no such parameter, so Python raises `TypeError`
before the function body runs and the jobs table is never touched by the
call. -/
def updateIngestJobTypeError : String :=
  "TypeError: unexpected keyword argument 'universe_symbols_considered'"

/-- Embeds `_run_full_history_ingest` (the background task of
`/datalake/eodhd/full-history/start`). The source intends to: re-select
the universe; on an empty universe mark the job `failed`; otherwise mark
it `running`, ingest every symbol × window, and unconditionally mark the
job `succeeded`. However, every one of its `update_ingest_job` calls
raises the `TypeError` above (see `updateIngestJobTypeError`): on the
empty-universe path the line-620 call raises, the outer `except` (line
694) retries the same malformed call and the `TypeError` escapes the
task; on the non-empty path the "mark running" call at line 645 raises
before any (symbol, window) is ingested, with the same outcome. In every
case the job row is left unchanged and the task dies with the error. -/
def run_full_history_ingest (job : IngestJob) (payload : FullHistoryRequest)
    (tbl : List UniverseRow) : IngestJob × Option String :=
  let symbols := select_universe_symbols payload.filters.min_market_cap
    payload.filters.max_market_cap payload.filters.exchanges
    payload.filters.include_etfs payload.filters.active_only
    payload.filters.max_symbols tbl
  if symbols.length = 0 then (job, some updateIngestJobTypeError)
  else
    let _windows := build_windows payload.start payload.end_ payload.window_days
    (job, some updateIngestJobTypeError)

/-- Outcome of the `/datalake/eodhd/full-history/start` handler. -/
inductive StartResult where
  | badRange
  | badWindow
  | started (jobId : String)
deriving DecidableEq, Repr

/-- Embeds `start_eodhd_full_history` (lines 709-757): reject
`start > end` (BadRange 400) and `window_days <= 0` (BadWindow 400)
synchronously with no job row; otherwise insert the job row (all counters
and `universe_symbols_considered` zero) and schedule the background task —
the universe is not consulted here. Returns the handler outcome and the
job rows created synchronously. -/
def start_eodhd_full_history (payload : FullHistoryRequest) (jobId : String)
    (now : Int) : StartResult × List IngestJob :=
  if payload.end_ < payload.start then (StartResult.badRange, [])
  else if payload.window_days ≤ 0 then (StartResult.badWindow, [])
  else
    (StartResult.started jobId,
     [create_ingest_job jobId now payload.start payload.end_ 0 0 0 0 none])

/-! ## Bar store — `backend/app/datalake/bar_store.py`

Tables `daily_bars` (hot/live) and `daily_bars_archive`, primary key
`(symbol, trade_date)`. -/

/-- One row of `daily_bars` / `daily_bars_archive`. -/
structure BarRow where
  symbol : String
  trade_date : Int
  open_ : ℚ
  high : ℚ
  low : ℚ
  close : ℚ
  volume : ℚ
  vwap : Option ℚ
  turnover : Option ℚ
  change_pct : Option ℚ
  adj_open : Option ℚ
  adj_high : Option ℚ
  adj_low : Option ℚ
  adj_close : Option ℚ
deriving DecidableEq, Repr

/-- The primary key of a bar row. -/
def barKey (r : BarRow) : String × Int := (r.symbol, r.trade_date)

/-- `INSERT OR REPLACE` on a bar table: replace the row with the same
primary key in place, or append when none exists. -/
def insertOrReplaceBar (t : List BarRow) (r : BarRow) : List BarRow :=
  if t.any (fun x => barKey x = barKey r) then
    t.map (fun x => if barKey x = barKey r then r else x)
  else t ++ [r]

/-- A `PriceBarDTO` (`backend/app/datalake/eodhd_client.py`): a
`total=False` `TypedDict`, so the optional keys are simply absent when the
vendor did not supply them — modelled as `none`. The ISO `time` string of
the required key is modelled by the trade date it parses to
(`datetime.fromisoformat(b["time"]).date()`). -/
structure PriceBar where
  time : Int
  open_ : ℚ
  high : ℚ
  low : ℚ
  close : ℚ
  volume : ℚ
  vwap : Option ℚ
  turnover : Option ℚ
  change_pct : Option ℚ
  adj_open : Option ℚ
  adj_high : Option ℚ
  adj_low : Option ℚ
  adj_close : Option ℚ
deriving DecidableEq, Repr

/-- The record built for one bar inside `upsert_daily_bars`: the adjusted
fields fall back to the raw fields via
`b.get("adj_open", b.get("open"))` (and likewise for high/low/close); the
required raw keys are always present, so the stored adjusted columns are
always non-NULL. `sym` is the already-uppercased symbol. -/
def barToRecord (sym : String) (b : PriceBar) : BarRow :=
  { symbol := sym
    trade_date := b.time
    open_ := b.open_
    high := b.high
    low := b.low
    close := b.close
    volume := b.volume
    vwap := b.vwap
    turnover := b.turnover
    change_pct := b.change_pct
    adj_open := some (b.adj_open.getD b.open_)
    adj_high := some (b.adj_high.getD b.high)
    adj_low := some (b.adj_low.getD b.low)
    adj_close := some (b.adj_close.getD b.close) }

/-- Embeds `upsert_daily_bars(symbol, bars)`: early-return 0 on empty
input, otherwise uppercase the symbol, build the records and
`INSERT OR REPLACE` them into `daily_bars` in one transaction; returns
`len(records)`. -/
def upsert_daily_bars (symbol : String) (bars : List PriceBar)
    (t : List BarRow) : List BarRow × Nat :=
  if bars = [] then (t, 0)
  else
    ((bars.map (barToRecord symbol.toUpper)).foldl insertOrReplaceBar t,
     bars.length)

/-- The DTO rebuilt from a stored row by `read_daily_bars`: required
fields always, optional fields only when the column is non-NULL. -/
def rowToBar (r : BarRow) : PriceBar :=
  { time := r.trade_date
    open_ := r.open_
    high := r.high
    low := r.low
    close := r.close
    volume := r.volume
    vwap := r.vwap
    turnover := r.turnover
    change_pct := r.change_pct
    adj_open := r.adj_open
    adj_high := r.adj_high
    adj_low := r.adj_low
    adj_close := r.adj_close }

/-- Embeds `read_daily_bars(symbol, start, end)`:
`WHERE symbol = ? AND trade_date BETWEEN ? AND ? ORDER BY trade_date`,
each row converted by `rowToBar`. -/
def read_daily_bars (symbol : String) (start end_ : Int)
    (t : List BarRow) : List PriceBar :=
  ((t.filter (fun r =>
      decide (r.symbol = symbol.toUpper) &&
      decide (start ≤ r.trade_date) && decide (r.trade_date ≤ end_))).insertionSort
    (fun a b => a.trade_date ≤ b.trade_date)).map rowToBar

/-- The dictionary returned by `archive_old_daily_bars`. -/
structure ArchiveResult where
  archived : Nat
  deleted_from_hot : Nat
deriving DecidableEq, Repr

/-- Embeds `archive_old_daily_bars(cutoff_date)`: count the live rows with
`trade_date < cutoff`; when zero, return zero counts without touching
either table; otherwise, in one transaction, `INSERT OR REPLACE` those
rows into `daily_bars_archive` and then delete them from `daily_bars`;
both returned counts are the pre-copy count. (The spec names the live
table's count `deleted_from_live`; the source dictionary key is
`deleted_from_hot` for the same table.) -/
def archive_old_daily_bars (cutoff : Int) (live archive : List BarRow) :
    (List BarRow × List BarRow) × ArchiveResult :=
  let toMove := (live.filter (fun r => decide (r.trade_date < cutoff))).length
  if toMove = 0 then ((live, archive), ⟨0, 0⟩)
  else
    let moved := live.filter (fun r => decide (r.trade_date < cutoff))
    let archive1 := moved.foldl insertOrReplaceBar archive
    let live1 := live.filter (fun r => !decide (r.trade_date < cutoff))
    ((live1, archive1), ⟨toMove, toMove⟩)

/-! ## Theorems -/

/-- C9: `reset_stale_running_to_pending` returns 0 unconditionally, for
every job id, cutoff and queue — the number of reclaimed rows is never
observable from its return value. -/
theorem reset_stale_running_returns_zero (jobId : String) (cutoff : Int)
    (q : List QueueRow) :
    (reset_stale_running_to_pending jobId cutoff q).2 = 0 := rfl

/-- C8: `update_ingest_job_progress` changes only the fields it is given —
`state` and `universe_symbols_considered` when supplied (kept otherwise),
the three counters and `last_error` always — and leaves `id`,
`created_at`, `started_at`, `finished_at`, `requested_start` and
`requested_end` untouched; in particular it never sets `finished_at`. -/
theorem update_ingest_job_progress_frame (job : IngestJob)
    (st : Option String) (uc : Option Int) (a s f : Int)
    (e : Option String) :
    (update_ingest_job_progress job st uc a s f e).id = job.id ∧
    (update_ingest_job_progress job st uc a s f e).created_at = job.created_at ∧
    (update_ingest_job_progress job st uc a s f e).started_at = job.started_at ∧
    (update_ingest_job_progress job st uc a s f e).finished_at = job.finished_at ∧
    (update_ingest_job_progress job st uc a s f e).requested_start = job.requested_start ∧
    (update_ingest_job_progress job st uc a s f e).requested_end = job.requested_end ∧
    (update_ingest_job_progress job st uc a s f e).state = st.getD job.state ∧
    (update_ingest_job_progress job st uc a s f e).universe_symbols_considered
      = uc.getD job.universe_symbols_considered ∧
    (update_ingest_job_progress job st uc a s f e).symbols_attempted = a ∧
    (update_ingest_job_progress job st uc a s f e).symbols_succeeded = s ∧
    (update_ingest_job_progress job st uc a s f e).symbols_failed = f ∧
    (update_ingest_job_progress job st uc a s f e).last_error = e := by
  refine ⟨rfl, rfl, rfl, rfl, rfl, rfl, rfl, rfl, rfl, rfl, rfl, rfl⟩

theorem length_filter_id_add_not (l : List Bool) :
    (l.filter (fun b => b)).length + (l.filter (fun b => !b)).length
      = l.length := by
  induction l with
  | nil => rfl
  | cons a l ih =>
      cases a <;> simp [List.filter_cons] <;> omega

theorem finalize_ingest_window_job_eq (job : IngestJob) (outcomes : List Bool)
    (now : Int) :
    finalize_ingest_window_job job outcomes now =
      { job with
          finished_at := some now
          state := if (outcomes.filter (fun b => !b)).length = 0
                   then "succeeded" else "failed"
          symbols_attempted := (outcomes.length : Int)
          symbols_succeeded := ((outcomes.filter (fun b => b)).length : Int)
          symbols_failed := ((outcomes.filter (fun b => !b)).length : Int)
          last_error := if (outcomes.filter (fun b => !b)).length = 0
                        then none
                        else some "Some symbols failed during ingest." } := by
  unfold finalize_ingest_window_job update_ingest_job
  by_cases h : (outcomes.filter (fun b => !b)).length = 0 <;>
    simp [h]

/-- C3: every terminal job write in the system goes through
`update_ingest_job`, and the only caller that ever hands it a non-running
state (the shared finalization of the synchronous ingest handlers,
`finalize_ingest_window_job`) computes `succeeded` iff the failed counter
is 0, sets `finished_at`, and satisfies
`symbols_attempted = symbols_succeeded + symbols_failed`. While a job is
running nothing sets `finished_at`: `create_ingest_job` starts it at
`NULL`, a running-state `update_ingest_job` and every
`update_ingest_job_progress` leave it unchanged, and the background
`_run_full_history_ingest` task never updates the job row at all (each of
its update calls raises the `TypeError` of `updateIngestJobTypeError`). -/
theorem terminal_job_invariants (job : IngestJob) (outcomes : List Bool)
    (now : Int) (a s f : Int) (e : Option String) (st : Option String)
    (uc : Option Int) (payload : FullHistoryRequest) (tbl : List UniverseRow)
    (jid : String) (rs re ucc aa ss ff : Int) (le : Option String) :
    ((finalize_ingest_window_job job outcomes now).state = "succeeded" ∨
      (finalize_ingest_window_job job outcomes now).state = "failed") ∧
    ((finalize_ingest_window_job job outcomes now).state = "succeeded" ↔
      (finalize_ingest_window_job job outcomes now).symbols_failed = 0) ∧
    (finalize_ingest_window_job job outcomes now).finished_at = some now ∧
    (finalize_ingest_window_job job outcomes now).symbols_attempted =
      (finalize_ingest_window_job job outcomes now).symbols_succeeded +
        (finalize_ingest_window_job job outcomes now).symbols_failed ∧
    (create_ingest_job jid now rs re ucc aa ss ff le).finished_at = none ∧
    (update_ingest_job job "running" a s f e now).finished_at
      = job.finished_at ∧
    (update_ingest_job_progress job st uc a s f e).finished_at
      = job.finished_at ∧
    (run_full_history_ingest job payload tbl).1 = job ∧
    (run_full_history_ingest job payload tbl).2 = some updateIngestJobTypeError := by
  rw [finalize_ingest_window_job_eq]
  refine ⟨?_, ?_, rfl, ?_, rfl, ?_, rfl, ?_, ?_⟩
  · by_cases h : (outcomes.filter (fun b => !b)).length = 0 <;> simp [h]
  · by_cases h : (outcomes.filter (fun b => !b)).length = 0 <;> simp [h]
  · have := length_filter_id_add_not outcomes
    simp only []
    omega
  · simp [update_ingest_job]
  · unfold run_full_history_ingest
    by_cases h : (select_universe_symbols payload.filters.min_market_cap
        payload.filters.max_market_cap payload.filters.exchanges
        payload.filters.include_etfs payload.filters.active_only
        payload.filters.max_symbols tbl).length = 0 <;> simp [h]
  · unfold run_full_history_ingest
    by_cases h : (select_universe_symbols payload.filters.min_market_cap
        payload.filters.max_market_cap payload.filters.exchanges
        payload.filters.include_etfs payload.filters.active_only
        payload.filters.max_symbols tbl).length = 0 <;> simp [h]

/-- C4 (amended): `BadRange` (`start > end`) and `BadWindow`
(`window_days < 1`) are rejected synchronously by
`start_eodhd_full_history` before any job row is inserted, and the
synchronous `ingest-window` handler surfaces `NoUniverseMatch` (empty
`select_symbols`) with a 400 and no job row; the background start
handler, by contrast, creates the job before the universe is consulted
(see the C4 counterexample). -/
theorem input_errors_no_job
    (p : FullHistoryRequest) (jid : String) (now : Int)
    (fl : UniverseFilters) (rs re : Int) (tbl : List UniverseRow)
    (oracle : String → Bool) :
    (p.end_ < p.start →
      start_eodhd_full_history p jid now = (StartResult.badRange, [])) ∧
    (p.start ≤ p.end_ → p.window_days ≤ 0 →
      start_eodhd_full_history p jid now = (StartResult.badWindow, [])) ∧
    (select_universe_symbols fl.min_market_cap fl.max_market_cap
        fl.exchanges fl.include_etfs fl.active_only fl.max_symbols tbl = [] →
      ingest_eodhd_for_universe fl rs re tbl oracle jid now
        = (IngestWindowResult.noUniverseMatch, [])) := by
  refine ⟨?_, ?_, ?_⟩
  · intro h
    simp [start_eodhd_full_history, h]
  · intro h1 h2
    rw [start_eodhd_full_history, if_neg (by omega), if_pos h2]
  · intro h
    simp [ingest_eodhd_for_universe, h]

theorem input_errors_no_job_witness :
    start_eodhd_full_history ⟨2, 1, ⟨0, none, [], true, false, 5⟩, 1⟩ "j" 0
        = (StartResult.badRange, []) ∧
    start_eodhd_full_history ⟨1, 2, ⟨0, none, [], true, false, 5⟩, 0⟩ "j" 0
        = (StartResult.badWindow, []) ∧
    ingest_eodhd_for_universe ⟨0, none, [], true, false, 5⟩ 0 0 []
        (fun _ => true) "j" 0
      = (IngestWindowResult.noUniverseMatch, []) :=
  ⟨(input_errors_no_job ⟨2, 1, ⟨0, none, [], true, false, 5⟩, 1⟩ "j" 0
      ⟨0, none, [], true, false, 5⟩ 0 0 [] (fun _ => true)).1 (by decide),
   (input_errors_no_job ⟨1, 2, ⟨0, none, [], true, false, 5⟩, 0⟩ "j" 0
      ⟨0, none, [], true, false, 5⟩ 0 0 [] (fun _ => true)).2.1 (by decide)
      (by decide),
   (input_errors_no_job ⟨1, 2, ⟨0, none, [], true, false, 5⟩, 1⟩ "j" 0
      ⟨0, none, [], true, false, 5⟩ 0 0 [] (fun _ => true)).2.2 rfl⟩

/-- C4 counterexample: with a valid range and window but an empty
`symbol_universe`, `select_symbols` matches nothing (`NoUniverseMatch`),
yet `/datalake/eodhd/full-history/start` still inserts a job record
synchronously and reports success — the universe check only happens later
in the background task. -/
theorem start_creates_job_despite_no_universe_match :
    select_universe_symbols 0 none [] true false 5 [] = [] ∧
    (start_eodhd_full_history ⟨0, 0, ⟨0, none, [], true, false, 5⟩, 1⟩
        "job-1" 7).1 = StartResult.started "job-1" ∧
    (start_eodhd_full_history ⟨0, 0, ⟨0, none, [], true, false, 5⟩, 1⟩
        "job-1" 7).2
      = [create_ingest_job "job-1" 7 0 0 0 0 0 0 none] := by
  refine ⟨rfl, ?_, ?_⟩ <;> rfl

theorem buildWindowsFuel_nil (fuel : Nat) (cur e wd : Int) (h : ¬ cur ≤ e) :
    buildWindowsFuel fuel cur e wd = [] := by
  cases fuel with
  | zero => rfl
  | succ n => simp [buildWindowsFuel, h]

theorem buildWindowsFuel_spec (e wd : Int) (hwd : 1 ≤ wd) :
    ∀ (fuel : Nat) (cur : Int), cur ≤ e → (e + 1 - cur).toNat ≤ fuel →
      (buildWindowsFuel fuel cur e wd).head?.map Prod.fst = some cur ∧
      (buildWindowsFuel fuel cur e wd).getLast?.map Prod.snd = some e ∧
      List.Chain' (fun a b => b.1 = a.2 + 1) (buildWindowsFuel fuel cur e wd) ∧
      (∀ w ∈ buildWindowsFuel fuel cur e wd,
        cur ≤ w.1 ∧ w.1 ≤ w.2 ∧ w.2 ≤ e ∧ w.2 - w.1 + 1 ≤ wd) ∧
      (∀ d : Int, cur ≤ d → d ≤ e →
        ∃ w ∈ buildWindowsFuel fuel cur e wd, w.1 ≤ d ∧ d ≤ w.2) ∧
      List.Pairwise (fun a b => a.2 < b.1) (buildWindowsFuel fuel cur e wd) := by
  intro fuel
  induction fuel with
  | zero =>
      intro cur hcur hf
      exfalso
      omega
  | succ n ih =>
      intro cur hcur hf
      by_cases hlast : e ≤ cur + wd - 1
      · have hmin : min (cur + wd - 1) e = e := by omega
        have hnil : buildWindowsFuel n (e + 1) e wd = [] :=
          buildWindowsFuel_nil n (e + 1) e wd (by omega)
        simp only [buildWindowsFuel, if_pos hcur, hmin, hnil]
        refine ⟨rfl, rfl, ?_, ?_, ?_, ?_⟩
        · simp
        · intro w hw
          simp only [List.mem_singleton] at hw
          subst hw
          refine ⟨le_refl _, hcur, le_refl _, by omega⟩
        · intro d hd1 hd2
          exact ⟨(cur, e), List.mem_singleton.mpr rfl, hd1, hd2⟩
        · simp
      · have hmin : min (cur + wd - 1) e = cur + wd - 1 := by omega
        have hcur' : cur + wd - 1 + 1 ≤ e := by omega
        have hf' : (e + 1 - (cur + wd - 1 + 1)).toNat ≤ n := by omega
        obtain ⟨ihHead, ihLast, ihChain, ihBounds, ihCover, ihPair⟩ :=
          ih (cur + wd - 1 + 1) hcur' hf'
        simp only [buildWindowsFuel, if_pos hcur, hmin]
        have hrest : buildWindowsFuel n (cur + wd - 1 + 1) e wd ≠ [] := by
          intro hempty
          rw [hempty] at ihHead
          simp at ihHead
        refine ⟨rfl, ?_, ?_, ?_, ?_, ?_⟩
        · cases hb : buildWindowsFuel n (cur + wd - 1 + 1) e wd with
          | nil => exact absurd hb hrest
          | cons b l =>
              rw [hb] at ihLast
              rw [List.getLast?_cons_cons]
              exact ihLast
        · refine List.chain'_cons'.mpr ⟨?_, ihChain⟩
          intro b hb
          have : (buildWindowsFuel n (cur + wd - 1 + 1) e wd).head?.map
              Prod.fst = some b.1 := by
            rw [hb]
            rfl
          rw [ihHead] at this
          simpa using this.symm
        · intro w hw
          rcases List.mem_cons.mp hw with hw | hw
          · subst hw
            refine ⟨le_refl _, by omega, by omega, by omega⟩
          · obtain ⟨hb1, hb2, hb3, hb4⟩ := ihBounds w hw
            exact ⟨by omega, hb2, hb3, hb4⟩
        · intro d hd1 hd2
          by_cases hd : d ≤ cur + wd - 1
          · exact ⟨(cur, cur + wd - 1), List.mem_cons_self _ _, hd1, hd⟩
          · obtain ⟨w, hw, hw1, hw2⟩ := ihCover d (by omega) hd2
            exact ⟨w, List.mem_cons_of_mem _ hw, hw1, hw2⟩
        · refine List.pairwise_cons.mpr ⟨?_, ihPair⟩
          intro w hw
          have := (ihBounds w hw).1
          simpa using by omega

/-- C2: for `requested_start ≤ requested_end` and `window_days ≥ 1`, the
window list built by the full-history handlers is non-empty, starts at
`requested_start`, ends at `requested_end`, is contiguous (each window
starts the day after the previous one ends), lies within the requested
range, spans at most `window_days` calendar days per window, covers every
day of the range, and is pairwise non-overlapping. -/
theorem build_windows_partition (s e wd : Int) (h1 : s ≤ e) (h2 : 1 ≤ wd) :
    build_windows s e wd ≠ [] ∧
    (build_windows s e wd).head?.map Prod.fst = some s ∧
    (build_windows s e wd).getLast?.map Prod.snd = some e ∧
    List.Chain' (fun a b => b.1 = a.2 + 1) (build_windows s e wd) ∧
    (∀ w ∈ build_windows s e wd,
      s ≤ w.1 ∧ w.1 ≤ w.2 ∧ w.2 ≤ e ∧ w.2 - w.1 + 1 ≤ wd) ∧
    (∀ d : Int, s ≤ d → d ≤ e →
      ∃ w ∈ build_windows s e wd, w.1 ≤ d ∧ d ≤ w.2) ∧
    List.Pairwise (fun a b => a.2 < b.1) (build_windows s e wd) := by
  have h := buildWindowsFuel_spec e wd h2 (e + 1 - s).toNat s h1 (le_refl _)
  unfold build_windows
  refine ⟨?_, h.1, h.2.1, h.2.2.1, h.2.2.2.1, h.2.2.2.2.1, h.2.2.2.2.2⟩
  intro hnil
  have := h.1
  rw [hnil] at this
  simp at this

theorem build_windows_partition_witness :
    (0 : Int) ≤ 9 ∧ (1 : Int) ≤ 4 ∧
    build_windows 0 9 4 = [(0, 3), (4, 7), (8, 9)] ∧
    build_windows 0 9 4 ≠ [] :=
  ⟨by decide, by decide, by decide,
   (build_windows_partition 0 9 4 (by decide) (by decide)).1⟩

/-- A primary key is present in a queue table. -/
def keyPresent (q : List QueueRow) (k : String × String × Int × Int) : Bool :=
  q.any (fun x => rowKey x = k)

theorem keyPresent_insertOrIgnore_mono (q : List QueueRow) (r : QueueRow)
    (k : String × String × Int × Int) (h : keyPresent q k = true) :
    keyPresent (insertOrIgnore q r) k = true := by
  unfold insertOrIgnore
  split
  · exact h
  · unfold keyPresent at h ⊢
    simp only [List.any_append]
    exact Bool.or_eq_true_iff.mpr (Or.inl h)

theorem keyPresent_insertOrIgnore_self (q : List QueueRow) (r : QueueRow) :
    keyPresent (insertOrIgnore q r) (rowKey r) = true := by
  unfold insertOrIgnore
  split
  · assumption
  · unfold keyPresent
    simp

theorem mem_insertOrIgnore {q : List QueueRow} {r x : QueueRow}
    (h : x ∈ insertOrIgnore q r) : x ∈ q ∨ x = r := by
  unfold insertOrIgnore at h
  split at h
  · exact Or.inl h
  · simpa using h

theorem keyPresent_enqueue_foldl_mono (jobId : String) (now : Int) :
    ∀ (items : List (String × Int × Int)) (q : List QueueRow)
      (k : String × String × Int × Int), keyPresent q k = true →
      keyPresent
        (items.foldl (fun acc item => insertOrIgnore acc (enqueueRow jobId now item)) q)
        k = true := by
  intro items
  induction items with
  | nil => intro q k h; exact h
  | cons a l ih =>
      intro q k h
      exact ih _ k (keyPresent_insertOrIgnore_mono q _ k h)

theorem keyPresent_enqueue_foldl (jobId : String) (now : Int) :
    ∀ (items : List (String × Int × Int)) (q : List QueueRow),
      ∀ it ∈ items,
        keyPresent
          (items.foldl (fun acc item => insertOrIgnore acc (enqueueRow jobId now item)) q)
          (rowKey (enqueueRow jobId now it)) = true := by
  intro items
  induction items with
  | nil => intro q it h; simp at h
  | cons a l ih =>
      intro q it h
      rcases List.mem_cons.mp h with h | h
      · subst h
        exact keyPresent_enqueue_foldl_mono jobId now l _ _
          (keyPresent_insertOrIgnore_self q _)
      · exact ih _ it h

theorem enqueue_foldl_noop (jobId : String) (now : Int) :
    ∀ (items : List (String × Int × Int)) (q : List QueueRow),
      (∀ it ∈ items, keyPresent q (rowKey (enqueueRow jobId now it)) = true) →
      items.foldl (fun acc item => insertOrIgnore acc (enqueueRow jobId now item)) q
        = q := by
  intro items
  induction items with
  | nil => intro q _; rfl
  | cons a l ih =>
      intro q h
      have ha : insertOrIgnore q (enqueueRow jobId now a) = q := by
        unfold insertOrIgnore
        rw [if_pos]
        exact h a (List.mem_cons_self a l)
      simp only [List.foldl_cons, ha]
      exact ih q (fun it hit => h it (List.mem_cons_of_mem a hit))

theorem enqueue_foldl_mem (jobId : String) (now : Int) :
    ∀ (items : List (String × Int × Int)) (q : List QueueRow),
      ∀ r ∈ items.foldl (fun acc item => insertOrIgnore acc (enqueueRow jobId now item)) q,
        r ∈ q ∨ ∃ it ∈ items, r = enqueueRow jobId now it := by
  intro items
  induction items with
  | nil => intro q r h; exact Or.inl h
  | cons a l ih =>
      intro q r h
      rcases ih _ r h with h1 | ⟨it, hit, heq⟩
      · rcases mem_insertOrIgnore h1 with h2 | h2
        · exact Or.inl h2
        · exact Or.inr ⟨a, List.mem_cons_self a l, h2⟩
      · exact Or.inr ⟨it, List.mem_cons_of_mem a hit, heq⟩

/-- C6: `enqueue` is idempotent on the primary key: replaying the same
item list (at any later time `now2`) leaves the durable queue unchanged;
every row the first call added (rows not already in `q`) is an
`enqueueRow`, i.e. starts `pending` with `attempts = 0`,
`created_at = now1` and `last_attempt_at = last_error = NULL`. (The
returned count is `len(items)` — the attempted count — by definition.) -/
theorem enqueue_idempotent (jobId : String) (items : List (String × Int × Int))
    (now1 now2 : Int) (q : List QueueRow) :
    (enqueue jobId items now2 (enqueue jobId items now1 q).1).1
      = (enqueue jobId items now1 q).1 ∧
    (∀ r ∈ (enqueue jobId items now1 q).1,
      r ∈ q ∨ ∃ it ∈ items, r = enqueueRow jobId now1 it) ∧
    (∀ it : String × Int × Int,
      (enqueueRow jobId now1 it).state = QState.pending ∧
      (enqueueRow jobId now1 it).attempts = 0 ∧
      (enqueueRow jobId now1 it).created_at = some now1 ∧
      (enqueueRow jobId now1 it).last_attempt_at = none ∧
      (enqueueRow jobId now1 it).last_error = none ∧
      (enqueueRow jobId now1 it).job_id = jobId) := by
  refine ⟨?_, ?_, ?_⟩
  · by_cases h : items = []
    · subst h
      rfl
    · unfold enqueue
      rw [if_neg h, if_neg h]
      simp only []
      apply enqueue_foldl_noop
      intro it hit
      have hk : rowKey (enqueueRow jobId now2 it) = rowKey (enqueueRow jobId now1 it) := rfl
      rw [hk]
      exact keyPresent_enqueue_foldl jobId now1 items q it hit
  · by_cases h : items = []
    · subst h
      intro r hr
      exact Or.inl (by simpa [enqueue] using hr)
    · unfold enqueue
      rw [if_neg h]
      exact enqueue_foldl_mem jobId now1 items q
  · intro it
    exact ⟨rfl, rfl, rfl, rfl, rfl, rfl⟩

theorem enqueue_idempotent_witness :
    (enqueue "job-1" [("a", 0, 30)] 2 (enqueue "job-1" [("a", 0, 30)] 1 []).1).1
      = (enqueue "job-1" [("a", 0, 30)] 1 []).1 :=
  (enqueue_idempotent "job-1" [("a", 0, 30)] 1 2 []).1

theorem charsLt_total_chain :
    ∀ (x z y : List Char), charsLt x z = true →
      charsLt x y = true ∨ charsLt y z = true := by
  intro x
  induction x with
  | nil =>
      intro z y hxz
      cases z with
      | nil => simp [charsLt] at hxz
      | cons c cs =>
          cases y with
          | nil => exact Or.inr rfl
          | cons b bs => exact Or.inl rfl
  | cons a as ih =>
      intro z y hxz
      cases z with
      | nil => simp [charsLt] at hxz
      | cons c cs =>
          cases y with
          | nil => exact Or.inr rfl
          | cons b bs =>
              simp only [charsLt, Bool.or_eq_true, Bool.and_eq_true,
                decide_eq_true_eq] at hxz ⊢
              rcases Nat.lt_trichotomy a.toNat b.toNat with h | h | h
              · exact Or.inl (Or.inl h)
              · rcases hxz with h1 | ⟨h1, h2⟩
                · exact Or.inr (Or.inl (h ▸ h1))
                · rcases ih cs bs h2 with h3 | h3
                  · exact Or.inl (Or.inr ⟨h, h3⟩)
                  · exact Or.inr (Or.inr ⟨h.symm.trans h1, h3⟩)
              · rcases hxz with h1 | ⟨h1, _⟩
                · exact Or.inr (Or.inl (Nat.lt_trans h h1))
                · exact Or.inr (Or.inl (h1 ▸ h))

theorem popOrderLt_total_chain (x z y : QueueRow)
    (hxz : popOrderLt x z = true) :
    popOrderLt x y = true ∨ popOrderLt y z = true := by
  simp only [popOrderLt, symLt, Bool.or_eq_true, Bool.and_eq_true,
    decide_eq_true_eq] at hxz ⊢
  rcases Nat.lt_trichotomy (stateRank x.state) (stateRank y.state) with h | h | h
  · exact Or.inl (Or.inl h)
  · rcases hxz with h1 | ⟨h1, h2⟩
    · exact Or.inr (Or.inl (h ▸ h1))
    · rcases Int.lt_trichotomy x.attempts y.attempts with g | g | g
      · exact Or.inl (Or.inr ⟨h, Or.inl g⟩)
      · rcases h2 with h2 | ⟨h2, h3⟩
        · exact Or.inr (Or.inr ⟨h.symm.trans h1, Or.inl (g ▸ h2)⟩)
        · rcases charsLt_total_chain x.symbol.data z.symbol.data
            y.symbol.data h3 with h4 | h4
          · exact Or.inl (Or.inr ⟨h, Or.inr ⟨g, h4⟩⟩)
          · exact Or.inr (Or.inr ⟨h.symm.trans h1, Or.inr ⟨g.symm.trans h2, h4⟩⟩)
      · rcases h2 with h2 | ⟨h2, _⟩
        · exact Or.inr (Or.inr ⟨h.symm.trans h1, Or.inl (Int.lt_trans g h2)⟩)
        · exact Or.inr (Or.inr ⟨h.symm.trans h1, Or.inl (h2 ▸ g)⟩)
  · rcases hxz with h1 | ⟨h1, _⟩
    · exact Or.inr (Or.inl (Nat.lt_trans h h1))
    · exact Or.inr (Or.inl (h1 ▸ h))

theorem chooseFirst_foldl_mem :
    ∀ (xs : List QueueRow) (a : QueueRow),
      xs.foldl (fun acc x => if popOrderLt x acc then x else acc) a ∈ a :: xs := by
  intro xs
  induction xs with
  | nil => intro a; simp
  | cons y ys ih =>
      intro a
      simp only [List.foldl_cons]
      have h := ih (if popOrderLt y a then y else a)
      rcases List.mem_cons.mp h with h | h
      · rw [h]
        by_cases hc : popOrderLt y a = true <;> simp [hc]
      · exact List.mem_cons_of_mem _ (List.mem_cons_of_mem _ h)

theorem chooseFirst_foldl_min :
    ∀ (xs : List QueueRow) (a : QueueRow), ∀ x ∈ a :: xs,
      popOrderLt x
        (xs.foldl (fun acc y => if popOrderLt y acc then y else acc) a)
        = false := by
  intro xs
  induction xs with
  | nil =>
      intro a x hx
      simp only [List.mem_singleton] at hx
      subst hx
      exact popOrderLt_irrefl x
  | cons y ys ih =>
      intro a x hx
      simp only [List.foldl_cons]
      rcases List.mem_cons.mp hx with hx | hx
      · subst hx
        by_cases hc : popOrderLt y x = true
        · rw [if_pos hc]
          by_contra hcon
          rw [Bool.not_eq_false] at hcon
          rcases popOrderLt_total_chain x
              (ys.foldl (fun acc z => if popOrderLt z acc then z else acc) y)
              y hcon with h1 | h1
          · have h2 := popOrderLt_trans hc h1
            rw [popOrderLt_irrefl] at h2
            exact Bool.false_ne_true h2
          · have h2 := ih y y (List.mem_cons_self y ys)
            rw [h2] at h1
            exact Bool.false_ne_true h1
        · rw [if_neg hc]
          exact ih x x (List.mem_cons_self x ys)
      · rcases List.mem_cons.mp hx with hx | hx
        · subst hx
          by_cases hc : popOrderLt x a = true
          · rw [if_pos hc]
            exact ih x x (List.mem_cons_self x ys)
          · rw [if_neg hc]
            by_contra hcon
            rw [Bool.not_eq_false] at hcon
            rcases popOrderLt_total_chain x
                (ys.foldl (fun acc z => if popOrderLt z acc then z else acc) a)
                a hcon with h1 | h1
            · exact hc h1
            · have h2 := ih a a (List.mem_cons_self a ys)
              rw [h2] at h1
              exact Bool.false_ne_true h1
        · by_cases hc : popOrderLt y a = true
          · rw [if_pos hc]
            exact ih y x (List.mem_cons_of_mem y hx)
          · rw [if_neg hc]
            exact ih a x (List.mem_cons_of_mem a hx)

theorem chooseFirst_eq_none_iff (l : List QueueRow) :
    chooseFirst l = none ↔ l = [] := by
  cases l <;> simp [chooseFirst]

theorem chooseFirst_mem {l : List QueueRow} {r : QueueRow}
    (h : chooseFirst l = some r) : r ∈ l := by
  cases l with
  | nil => simp [chooseFirst] at h
  | cons a xs =>
      simp only [chooseFirst, Option.some_inj] at h
      rw [← h]
      exact chooseFirst_foldl_mem xs a

theorem chooseFirst_min {l : List QueueRow} {r : QueueRow}
    (h : chooseFirst l = some r) : ∀ x ∈ l, popOrderLt x r = false := by
  cases l with
  | nil => simp [chooseFirst] at h
  | cons a xs =>
      simp only [chooseFirst, Option.some_inj] at h
      intro x hx
      rw [← h]
      exact chooseFirst_foldl_min xs a x hx

/-- The running update `pop_next` applies to the selected row. -/
def popUpdatedRow (r : QueueRow) (now : Int) : QueueRow :=
  { r with state := QState.running, attempts := r.attempts + 1,
           last_attempt_at := some now, last_error := none }

/-- C1: on a queue whose primary keys are unique (the table's PRIMARY KEY
constraint), `pop_next` either returns `None` leaving every row unchanged
— exactly when no row of the job is eligible (`state ∈ {pending, failed}`
and `attempts < max_attempts`) — or returns the item of an eligible row
that is minimal for the order (pending before failed, then attempts
ascending, then symbol ascending), and the new queue differs from the old
only at that row, which now has `state='running'`, `attempts` incremented
by exactly 1, `last_attempt_at = now` and `last_error = NULL`. -/
theorem pop_next_spec (jobId : String) (maxA : Int) (now : Int)
    (q : List QueueRow) (hkeys : (q.map rowKey).Nodup) :
    ((pop_next jobId maxA now q).2 = none →
      (pop_next jobId maxA now q).1 = q ∧
      ∀ r ∈ q, popEligible jobId maxA r = false) ∧
    (∀ it, (pop_next jobId maxA now q).2 = some it →
      ∃ r ∈ q, popEligible jobId maxA r = true ∧
        (∀ x ∈ q, popEligible jobId maxA x = true → popOrderLt x r = false) ∧
        it = ⟨r.symbol, r.window_start, r.window_end, r.attempts + 1⟩ ∧
        (pop_next jobId maxA now q).1 =
          q.map (fun x => if x = r then popUpdatedRow r now else x)) := by
  cases hc : chooseFirst (q.filter (popEligible jobId maxA)) with
  | none =>
      have hpop : pop_next jobId maxA now q = (q, none) := by
        unfold pop_next
        rw [hc]
      constructor
      · intro _
        refine ⟨by rw [hpop], ?_⟩
        have hfil : q.filter (popEligible jobId maxA) = [] :=
          (chooseFirst_eq_none_iff _).mp hc
        intro r hr
        by_contra hne
        rw [Bool.not_eq_false] at hne
        have : r ∈ q.filter (popEligible jobId maxA) :=
          List.mem_filter.mpr ⟨hr, hne⟩
        rw [hfil] at this
        simp at this
      · intro it hit
        rw [hpop] at hit
        simp at hit
  | some r =>
      have hpop : pop_next jobId maxA now q =
          (q.map (fun x =>
            if rowKey x = (jobId, r.symbol, r.window_start, r.window_end)
            then { x with state := QState.running, attempts := r.attempts + 1,
                          last_attempt_at := some now, last_error := none }
            else x),
           some { symbol := r.symbol, window_start := r.window_start,
                  window_end := r.window_end, attempts := r.attempts + 1 }) := by
        unfold pop_next
        rw [hc]
      obtain ⟨hrq, hrelig⟩ := List.mem_filter.mp (chooseFirst_mem hc)
      have hjob : r.job_id = jobId := by
        simp only [popEligible, Bool.and_eq_true, decide_eq_true_eq] at hrelig
        exact hrelig.1.1
      constructor
      · intro hnone
        rw [hpop] at hnone
        simp at hnone
      · intro it hit
        rw [hpop] at hit
        simp only [Option.some_inj] at hit
        refine ⟨r, hrq, hrelig, ?_, hit.symm, ?_⟩
        · intro x hx helig
          exact chooseFirst_min hc x (List.mem_filter.mpr ⟨hx, helig⟩)
        · rw [hpop]
          simp only []
          apply List.map_congr_left
          intro x hxq
          by_cases hk : rowKey x = (jobId, r.symbol, r.window_start, r.window_end)
          · have hkr : rowKey x = rowKey r := by
              rw [hk, rowKey, hjob]
            have hxr : x = r :=
              List.inj_on_of_nodup_map hkeys hxq hrq hkr
            subst hxr
            rw [if_pos hk, if_pos rfl]
            rfl
          · have hxr : ¬ x = r := by
              intro hxr
              subst hxr
              apply hk
              rw [rowKey, hjob]
            rw [if_neg hk, if_neg hxr]

theorem pop_next_spec_witness :
    (([{ job_id := "j", symbol := "A", window_start := 0, window_end := 1,
         state := QState.pending, attempts := 0, created_at := some 0,
         last_attempt_at := none, last_error := none }] :
        List QueueRow).map rowKey).Nodup ∧
    ((pop_next "j" 5 3
        [{ job_id := "j", symbol := "A", window_start := 0, window_end := 1,
           state := QState.pending, attempts := 0, created_at := some 0,
           last_attempt_at := none, last_error := none }]).2 = none →
      (pop_next "j" 5 3
        [{ job_id := "j", symbol := "A", window_start := 0, window_end := 1,
           state := QState.pending, attempts := 0, created_at := some 0,
           last_attempt_at := none, last_error := none }]).1 =
        [{ job_id := "j", symbol := "A", window_start := 0, window_end := 1,
           state := QState.pending, attempts := 0, created_at := some 0,
           last_attempt_at := none, last_error := none }] ∧
      ∀ r ∈ ([{ job_id := "j", symbol := "A", window_start := 0,
                window_end := 1, state := QState.pending, attempts := 0,
                created_at := some 0, last_attempt_at := none,
                last_error := none }] : List QueueRow),
        popEligible "j" 5 r = false) :=
  ⟨by decide,
   (pop_next_spec "j" 5 3
      [{ job_id := "j", symbol := "A", window_start := 0, window_end := 1,
         state := QState.pending, attempts := 0, created_at := some 0,
         last_attempt_at := none, last_error := none }] (by decide)).1⟩

theorem mem_insertOrReplaceBar_self (t : List BarRow) (r : BarRow) :
    r ∈ insertOrReplaceBar t r := by
  unfold insertOrReplaceBar
  split
  · next h =>
      rw [List.any_eq_true] at h
      obtain ⟨y, hy, hyk⟩ := h
      rw [decide_eq_true_eq] at hyk
      exact List.mem_map.mpr ⟨y, hy, by rw [if_pos hyk]⟩
  · exact List.mem_append.mpr (Or.inr (List.mem_singleton.mpr rfl))

theorem mem_insertOrReplaceBar_preserve {t : List BarRow} {r x : BarRow}
    (hx : x ∈ t) (hne : ¬ barKey x = barKey r) :
    x ∈ insertOrReplaceBar t r := by
  unfold insertOrReplaceBar
  split
  · exact List.mem_map.mpr ⟨x, hx, by rw [if_neg hne]⟩
  · exact List.mem_append.mpr (Or.inl hx)

theorem mem_foldl_insertOrReplaceBar_preserve :
    ∀ (rs t : List BarRow) (x : BarRow), x ∈ t →
      (∀ r ∈ rs, ¬ barKey x = barKey r) →
      x ∈ rs.foldl insertOrReplaceBar t := by
  intro rs
  induction rs with
  | nil => intro t x hx _; exact hx
  | cons a l ih =>
      intro t x hx hne
      simp only [List.foldl_cons]
      exact ih _ x
        (mem_insertOrReplaceBar_preserve hx (hne a (List.mem_cons_self a l)))
        (fun r hr => hne r (List.mem_cons_of_mem a hr))

theorem mem_foldl_insertOrReplaceBar_self :
    ∀ (rs t : List BarRow), (rs.map barKey).Nodup →
      ∀ r ∈ rs, r ∈ rs.foldl insertOrReplaceBar t := by
  intro rs
  induction rs with
  | nil => intro t _ r hr; simp at hr
  | cons a l ih =>
      intro t hnd r hr
      simp only [List.map_cons, List.nodup_cons] at hnd
      rcases List.mem_cons.mp hr with hr | hr
      · subst hr
        simp only [List.foldl_cons]
        refine mem_foldl_insertOrReplaceBar_preserve l _ r
          (mem_insertOrReplaceBar_self t r) ?_
        intro r' hr' hk
        exact hnd.1 (List.mem_map.mpr ⟨r', hr', hk.symm⟩)
      · simp only [List.foldl_cons]
        exact ih _ hnd.2 r hr

theorem archive_old_daily_bars_zero (cutoff : Int) (live archive : List BarRow)
    (h : (live.filter (fun r => decide (r.trade_date < cutoff))).length = 0) :
    archive_old_daily_bars cutoff live archive = ((live, archive), ⟨0, 0⟩) := by
  unfold archive_old_daily_bars
  simp only [if_pos h]

theorem archive_old_daily_bars_pos (cutoff : Int) (live archive : List BarRow)
    (h : ¬ (live.filter (fun r => decide (r.trade_date < cutoff))).length = 0) :
    archive_old_daily_bars cutoff live archive =
      ((live.filter (fun r => !decide (r.trade_date < cutoff)),
        (live.filter (fun r => decide (r.trade_date < cutoff))).foldl
          insertOrReplaceBar archive),
       ⟨(live.filter (fun r => decide (r.trade_date < cutoff))).length,
        (live.filter (fun r => decide (r.trade_date < cutoff))).length⟩) := by
  unfold archive_old_daily_bars
  simp only [if_neg h]

/-- C5: after `archive_before(cutoff)` no live row has
`trade_date < cutoff`; every such row of the old live table is present in
the archive table; the surviving live table is exactly the rows at or
after the cutoff; both returned counts equal the number of rows moved;
and re-running with the same cutoff is a no-op returning zero counts.
(Requires the live table's PRIMARY KEY uniqueness.) -/
theorem archive_before_spec (cutoff : Int) (live archive : List BarRow)
    (hkeys : (live.map barKey).Nodup) :
    (∀ r ∈ (archive_old_daily_bars cutoff live archive).1.1,
      ¬ r.trade_date < cutoff) ∧
    (∀ r ∈ live, r.trade_date < cutoff →
      r ∈ (archive_old_daily_bars cutoff live archive).1.2) ∧
    ((archive_old_daily_bars cutoff live archive).1.1
      = live.filter (fun r => !decide (r.trade_date < cutoff))) ∧
    ((archive_old_daily_bars cutoff live archive).2.archived
      = (live.filter (fun r => decide (r.trade_date < cutoff))).length) ∧
    ((archive_old_daily_bars cutoff live archive).2.deleted_from_hot
      = (archive_old_daily_bars cutoff live archive).2.archived) ∧
    (archive_old_daily_bars cutoff
        (archive_old_daily_bars cutoff live archive).1.1
        (archive_old_daily_bars cutoff live archive).1.2
      = (((archive_old_daily_bars cutoff live archive).1.1,
          (archive_old_daily_bars cutoff live archive).1.2), ⟨0, 0⟩)) := by
  by_cases h : (live.filter (fun r => decide (r.trade_date < cutoff))).length = 0
  · have heq := archive_old_daily_bars_zero cutoff live archive h
    have hnil : live.filter (fun r => decide (r.trade_date < cutoff)) = [] :=
      List.length_eq_zero.mp h
    have hno : ∀ r ∈ live, ¬ r.trade_date < cutoff := by
      intro r hr hlt
      have : r ∈ live.filter (fun r => decide (r.trade_date < cutoff)) :=
        List.mem_filter.mpr ⟨hr, by simpa using hlt⟩
      rw [hnil] at this
      simp at this
    rw [heq]
    refine ⟨hno, ?_, ?_, by rw [h], rfl, ?_⟩
    · intro r hr hlt
      exact absurd hlt (hno r hr)
    · symm
      refine List.filter_eq_self.mpr ?_
      intro r hr
      simpa using hno r hr
    · exact archive_old_daily_bars_zero cutoff live archive h
  · have heq := archive_old_daily_bars_pos cutoff live archive h
    have hmovedkeys :
        ((live.filter (fun r => decide (r.trade_date < cutoff))).map barKey).Nodup :=
      ((List.filter_sublist live).map barKey).nodup hkeys
    rw [heq]
    have hlive1 : ∀ r ∈ live.filter (fun r => !decide (r.trade_date < cutoff)),
        ¬ r.trade_date < cutoff := by
      intro r hr
      have := (List.mem_filter.mp hr).2
      simpa using this
    refine ⟨hlive1, ?_, rfl, rfl, rfl, ?_⟩
    · intro r hr hlt
      exact mem_foldl_insertOrReplaceBar_self _ archive hmovedkeys r
        (List.mem_filter.mpr ⟨hr, by simpa using hlt⟩)
    · apply archive_old_daily_bars_zero
      have : (live.filter (fun r => !decide (r.trade_date < cutoff))).filter
          (fun r => decide (r.trade_date < cutoff)) = [] := by
        refine List.filter_eq_nil_iff.mpr ?_
        intro r hr
        simpa using hlive1 r hr
      rw [this]
      rfl

theorem archive_before_spec_witness :
    (([{ symbol := "A", trade_date := 0, open_ := 1, high := 2, low := 0,
         close := 1, volume := 3, vwap := none, turnover := none,
         change_pct := none, adj_open := none, adj_high := none,
         adj_low := none, adj_close := none }] : List BarRow).map barKey).Nodup ∧
    ∀ r ∈ (archive_old_daily_bars 5
        [{ symbol := "A", trade_date := 0, open_ := 1, high := 2, low := 0,
           close := 1, volume := 3, vwap := none, turnover := none,
           change_pct := none, adj_open := none, adj_high := none,
           adj_low := none, adj_close := none }] []).1.1,
      ¬ r.trade_date < 5 :=
  ⟨by decide,
   (archive_before_spec 5
      [{ symbol := "A", trade_date := 0, open_ := 1, high := 2, low := 0,
         close := 1, volume := 3, vwap := none, turnover := none,
         change_pct := none, adj_open := none, adj_high := none,
         adj_low := none, adj_close := none }] [] (by decide)).1⟩

theorem mem_insertOrReplaceBar {t : List BarRow} {r x : BarRow}
    (h : x ∈ insertOrReplaceBar t r) : x ∈ t ∨ x = r := by
  unfold insertOrReplaceBar at h
  split at h
  · obtain ⟨y, hy, hyx⟩ := List.mem_map.mp h
    by_cases hk : barKey y = barKey r
    · rw [if_pos hk] at hyx
      exact Or.inr hyx.symm
    · rw [if_neg hk] at hyx
      exact Or.inl (hyx ▸ hy)
  · rcases List.mem_append.mp h with h | h
    · exact Or.inl h
    · exact Or.inr (List.mem_singleton.mp h)

theorem foldl_insertOrReplaceBar_mem :
    ∀ (rs t : List BarRow), ∀ x ∈ rs.foldl insertOrReplaceBar t,
      x ∈ t ∨ x ∈ rs := by
  intro rs
  induction rs with
  | nil => intro t x hx; exact Or.inl hx
  | cons a l ih =>
      intro t x hx
      simp only [List.foldl_cons] at hx
      rcases ih _ x hx with h | h
      · rcases mem_insertOrReplaceBar h with h | h
        · exact Or.inl h
        · exact Or.inr (h ▸ List.mem_cons_self a l)
      · exact Or.inr (List.mem_cons_of_mem a h)

/-- C10: inside `upsert_daily_bars` every adjusted column falls back to
the corresponding raw value when the vendor bar lacks it
(`b.get("adj_*", b.get(raw))`), so every row written through the upsert
has non-NULL adjusted columns (they are `some _` for every input bar),
and a bar stored without an `adj_close` reads back through
`read_daily_bars` with `adj_close` equal to its `close`; every DTO
returned by `read_daily_bars` is the conversion of a stored row matching
the symbol and date range. -/
theorem upsert_adj_defaults (symbol : String) (bars : List PriceBar)
    (t : List BarRow) (b : PriceBar) (s e : Int) :
    (∀ r ∈ (upsert_daily_bars symbol bars t).1,
      r ∈ t ∨ ∃ b2 ∈ bars, r = barToRecord symbol.toUpper b2) ∧
    ((barToRecord symbol.toUpper b).adj_open
        = some (b.adj_open.getD b.open_) ∧
      (barToRecord symbol.toUpper b).adj_high
        = some (b.adj_high.getD b.high) ∧
      (barToRecord symbol.toUpper b).adj_low
        = some (b.adj_low.getD b.low) ∧
      (barToRecord symbol.toUpper b).adj_close
        = some (b.adj_close.getD b.close)) ∧
    (b.adj_open = none →
      (barToRecord symbol.toUpper b).adj_open = some b.open_) ∧
    (b.adj_close = none →
      (rowToBar (barToRecord symbol.toUpper b)).adj_close = some b.close) ∧
    (∀ dto ∈ read_daily_bars symbol s e t, ∃ row ∈ t,
      row.symbol = symbol.toUpper ∧ s ≤ row.trade_date ∧
      row.trade_date ≤ e ∧ dto = rowToBar row) := by
  refine ⟨?_, ⟨rfl, rfl, rfl, rfl⟩, ?_, ?_, ?_⟩
  · intro r hr
    by_cases hb : bars = []
    · subst hb
      exact Or.inl (by simpa [upsert_daily_bars] using hr)
    · unfold upsert_daily_bars at hr
      rw [if_neg hb] at hr
      simp only [] at hr
      rcases foldl_insertOrReplaceBar_mem _ t r hr with h | h
      · exact Or.inl h
      · obtain ⟨b2, hb2, hb2r⟩ := List.mem_map.mp h
        exact Or.inr ⟨b2, hb2, hb2r.symm⟩
  · intro h
    simp [barToRecord, h]
  · intro h
    simp [barToRecord, rowToBar, h]
  · intro dto hdto
    unfold read_daily_bars at hdto
    obtain ⟨row, hrow, hconv⟩ := List.mem_map.mp hdto
    have hrow2 := (List.perm_insertionSort
      (fun a b : BarRow => a.trade_date ≤ b.trade_date) _).mem_iff.mp hrow
    obtain ⟨hmem, hcond⟩ := List.mem_filter.mp hrow2
    simp only [Bool.and_eq_true, decide_eq_true_eq] at hcond
    exact ⟨row, hmem, hcond.1.1, hcond.1.2, hcond.2, hconv.symm⟩

theorem upsert_adj_defaults_witness :
    ({ time := 3, open_ := 1, high := 2, low := 1, close := 2, volume := 9,
       vwap := none, turnover := none, change_pct := none, adj_open := none,
       adj_high := none, adj_low := none,
       adj_close := none } : PriceBar).adj_close = none ∧
    (rowToBar (barToRecord "AAPL".toUpper
        { time := 3, open_ := 1, high := 2, low := 1, close := 2, volume := 9,
          vwap := none, turnover := none, change_pct := none,
          adj_open := none, adj_high := none, adj_low := none,
          adj_close := none })).adj_close = some 2 :=
  ⟨rfl,
   (upsert_adj_defaults "AAPL"
      [{ time := 3, open_ := 1, high := 2, low := 1, close := 2, volume := 9,
         vwap := none, turnover := none, change_pct := none, adj_open := none,
         adj_high := none, adj_low := none, adj_close := none }] []
      { time := 3, open_ := 1, high := 2, low := 1, close := 2, volume := 9,
        vwap := none, turnover := none, change_pct := none, adj_open := none,
        adj_high := none, adj_low := none, adj_close := none }
      0 5).2.2.2.1 rfl⟩

instance : IsTotal UniverseRow
    (fun a b => b.market_cap.getD 0 ≤ a.market_cap.getD 0) :=
  ⟨fun _ _ => le_total _ _⟩

instance : IsTrans UniverseRow
    (fun a b => b.market_cap.getD 0 ≤ a.market_cap.getD 0) :=
  ⟨fun _ _ _ h1 h2 => le_trans h2 h1⟩

/-- C7 (amended): `_select_universe_symbols` returns the symbols of at
most `max_symbols` table rows, each satisfying every filter of the WHERE
clause (exchange membership when the list is non-empty, funds always
excluded with NULL as not-fund, non-NULL market cap within
`[min_cap, max_cap]`, ETFs excluded unless `include_etfs`,
actively-trading only when `active_only`), ordered by market-cap
descending — but with NO secondary sort: the SQL is
`ORDER BY market_cap DESC LIMIT ?`, so equal market caps are not ordered
by symbol (see the C7 counterexample). -/
theorem select_universe_symbols_spec (minc : Int) (maxc : Option Int)
    (exchs : List String) (ietf aonly : Bool) (maxs : Nat)
    (tbl : List UniverseRow) :
    select_universe_symbols minc maxc exchs ietf aonly maxs tbl =
      ((sortByCapDesc
          (tbl.filter (universeWhere minc maxc exchs ietf aonly))).take
        maxs).map (fun r => r.symbol) ∧
    (select_universe_symbols minc maxc exchs ietf aonly maxs tbl).length
      ≤ maxs ∧
    List.Sorted
      (fun a b : UniverseRow => b.market_cap.getD 0 ≤ a.market_cap.getD 0)
      ((sortByCapDesc
          (tbl.filter (universeWhere minc maxc exchs ietf aonly))).take maxs) ∧
    (∀ r ∈ (sortByCapDesc
        (tbl.filter (universeWhere minc maxc exchs ietf aonly))).take maxs,
      r ∈ tbl ∧
      (exchs ≠ [] → ∃ e0 ∈ exchs, r.exchange = some e0.toUpper) ∧
      r.is_fund ≠ some true ∧
      (∃ c, r.market_cap = some c ∧ minc ≤ c ∧
        ∀ m, maxc = some m → c ≤ m) ∧
      (ietf = false → r.is_etf ≠ some true) ∧
      (aonly = true → r.is_actively_trading = some true)) := by
  refine ⟨rfl, ?_, ?_, ?_⟩
  · unfold select_universe_symbols
    rw [List.length_map]
    exact List.length_take_le _ _
  · exact List.Pairwise.sublist (List.take_sublist _ _)
      (List.sorted_insertionSort _ _)
  · intro r hr
    have hr2 : r ∈ sortByCapDesc
        (tbl.filter (universeWhere minc maxc exchs ietf aonly)) :=
      List.take_subset _ _ hr
    have hr3 : r ∈ tbl.filter (universeWhere minc maxc exchs ietf aonly) :=
      (List.perm_insertionSort _ _).mem_iff.mp hr2
    obtain ⟨hmem, hw⟩ := List.mem_filter.mp hr3
    unfold universeWhere at hw
    simp only [Bool.and_eq_true] at hw
    obtain ⟨⟨⟨⟨hA, hB⟩, hC⟩, hD⟩, hE⟩ := hw
    refine ⟨hmem, ?_, ?_, ?_, ?_, ?_⟩
    · intro hne
      rcases Bool.or_eq_true_iff.mp hA with h | h
      · rw [List.isEmpty_iff] at h
        exact absurd h hne
      · obtain ⟨e1, he1, he2⟩ := List.any_eq_true.mp h
        obtain ⟨e0, he0, he0u⟩ := List.mem_map.mp he1
        rw [decide_eq_true_eq] at he2
        exact ⟨e0, he0, by rw [he2, he0u]⟩
    · rcases Bool.or_eq_true_iff.mp hB with h | h <;>
        rw [decide_eq_true_eq] at h <;> simp [h]
    · cases hm : r.market_cap with
      | none => rw [hm] at hC; simp at hC
      | some c =>
          rw [hm] at hC
          simp only [Bool.and_eq_true, decide_eq_true_eq] at hC
          refine ⟨c, rfl, hC.1, ?_⟩
          intro m hmx
          have := hC.2
          rw [hmx] at this
          simpa using this
    · intro hietf
      rw [hietf] at hD
      simp only [Bool.false_or] at hD
      rcases Bool.or_eq_true_iff.mp hD with h | h <;>
        · rw [decide_eq_true_eq] at h
          simp [h]
    · intro haonly
      rw [haonly] at hE
      simp only [Bool.not_true, Bool.false_or] at hE
      rwa [decide_eq_true_eq] at hE

theorem select_universe_symbols_spec_witness :
    (select_universe_symbols 0 none [] true false 3
      [{ symbol := "CCC", exchange := some "NYSE", market_cap := some 7,
         is_etf := some false, is_fund := some false,
         is_actively_trading := some true }]).length ≤ 3 :=
  (select_universe_symbols_spec 0 none [] true false 3
    [{ symbol := "CCC", exchange := some "NYSE", market_cap := some 7,
       is_etf := some false, is_fund := some false,
       is_actively_trading := some true }]).2.1

/-- C7 counterexample: two rows with EQUAL market caps and symbols in
descending order pass all filters; the query has no symbol tie-break, so
the result comes back `["BBB", "AAA"]` — not symbol-ascending as the
claim requires (`"AAA"` sorts before `"BBB"`). -/
theorem select_universe_symbols_counterexample :
    select_universe_symbols 0 none [] true false 10
      [{ symbol := "BBB", exchange := some "NYSE", market_cap := some 5,
         is_etf := some false, is_fund := some false,
         is_actively_trading := some true },
       { symbol := "AAA", exchange := some "NYSE", market_cap := some 5,
         is_etf := some false, is_fund := some false,
         is_actively_trading := some true }] = ["BBB", "AAA"] ∧
    symLt "AAA" "BBB" = true := by
  constructor
  · rfl
  · decide
